import Mathlib

/-!
# Unicode_Converter_GUI: conversion and synchronisation engine

A shallow embedding of `main.go`.  Go strings are byte sequences, so a string is a list of
bytes; runes and machine integers are mathematical integers with explicit wrap-around where
the program converts between widths.  A Go call has three possible outcomes: a value with a
nil error, a non-nil error, or a run-time panic.
-/

namespace UnicodeConverter

/-! ## Go values -/

/-- One byte of a Go string. -/
abbrev Byte := Fin 256

/-- A Go `string`: an arbitrary sequence of bytes (not necessarily valid UTF-8). -/
abbrev GoString := List Byte

/-- Go's `rune` (an `int32`) and `int`, as mathematical integers. -/
abbrev Rune := Int

/-- The Go conversion `byte(x)`: keeps the low eight bits. -/
def toByte (n : Nat) : Byte := ⟨n % 256, Nat.mod_lt n (by decide)⟩

/-- Width of Go's `int` on the build target (`strconv.IntSize`). -/
inductive Arch where
  | bits32
  | bits64
  deriving DecidableEq, Repr

/-- Number of bits of `int`. -/
def Arch.intSize : Arch → Nat
  | .bits32 => 32
  | .bits64 => 64

/-- The `errors.New` sites of `main.go`, in source order. -/
inductive GoError where
  /-- Message "an empty string was passed ..." (lines 65 and 87) -/
  | emptyString
  /-- Message "a backspace character was passed ..." (lines 67 and 89) -/
  | backspaceCharacter
  /-- Message "Only one rune should exist in the unicode output box" (line 73) -/
  | onlyOneRune
  /-- Message "failed to conv string to int (32-bits)" (line 98) -/
  | convFailed
  deriving DecidableEq, Repr

/-- Outcome of a Go call returning `(T, error)`: a value with nil error, a non-nil error,
or a run-time panic (index out of range). -/
inductive GoResult (α : Type) where
  | ok (v : α)
  | err (e : GoError)
  | panic
  deriving DecidableEq, Repr

/-- The call returned a non-nil error (and did not panic). -/
def GoResult.failed {α : Type} : GoResult α → Bool
  | .err _ => true
  | _ => false

/-! ## Constants of `main.go` (lines 21-31) -/

/-- The literal `"U+0008"`. -/
def BACKSPACE_UNICODE : GoString := [85, 43, 48, 48, 48, 56]
/-- The literal `"U+2408"`. -/
def BACKSPACE_SYMBOL_UNICODE : GoString := [85, 43, 50, 52, 48, 56]
/-- The literal `"U+232B"`. -/
def ERASE_TO_LEFT_UNICODE : GoString := [85, 43, 50, 51, 50, 66]
/-- The literal `"U+007F"`. -/
def DELETE_UNICODE : GoString := [85, 43, 48, 48, 55, 70]
/-- The literal `"U+2421"`. -/
def DELETE_SYMBOL_UNICODE : GoString := [85, 43, 50, 52, 50, 49]
/-- The literal `"U+2326"`. -/
def ERASE_TO_RIGHT_UNICODE : GoString := [85, 43, 50, 51, 50, 54]

/-- The forbidden notations, `bad_unicode_list` (line 31). -/
def bad_unicode_list : List GoString :=
  [BACKSPACE_UNICODE, BACKSPACE_SYMBOL_UNICODE, ERASE_TO_LEFT_UNICODE,
   DELETE_UNICODE, DELETE_SYMBOL_UNICODE, ERASE_TO_RIGHT_UNICODE]

/-! ## Go runtime and standard library: UTF-8 -/

/-- Go library `utf8.RuneError`, U+FFFD. -/
def RuneError : Rune := 65533

/-- A continuation byte `10xxxxxx`. -/
def isCont (b : Byte) : Bool := 128 ≤ b.val && b.val ≤ 191

/-- Lowest second byte accepted after the lead byte `b0` (`utf8.acceptRanges`). -/
def acceptLo (b0 : Byte) : Nat :=
  if b0.val = 224 then 160 else if b0.val = 240 then 144 else 128

/-- Highest second byte accepted after the lead byte `b0` (`utf8.acceptRanges`). -/
def acceptHi (b0 : Byte) : Nat :=
  if b0.val = 237 then 159 else if b0.val = 244 then 143 else 191

/-- Go library `utf8.DecodeRuneInString`: the first rune of `s` and its width in bytes.  An empty string
gives `(RuneError, 0)`, an invalid or incomplete encoding gives `(RuneError, 1)`. -/
def utf8_DecodeRuneInString : GoString → Rune × Nat
  | [] => (RuneError, 0)
  | b0 :: rest =>
    if b0.val < 128 then ((b0.val : Int), 1)
    else if b0.val < 194 then (RuneError, 1)
    else if b0.val < 224 then
      match rest with
      | b1 :: _ =>
        if isCont b1 then ((((b0.val - 192) * 64 + (b1.val - 128) : Nat) : Int), 2)
        else (RuneError, 1)
      | [] => (RuneError, 1)
    else if b0.val < 240 then
      match rest with
      | b1 :: b2 :: _ =>
        if acceptLo b0 ≤ b1.val && b1.val ≤ acceptHi b0 && isCont b2 then
          ((((b0.val - 224) * 4096 + (b1.val - 128) * 64 + (b2.val - 128) : Nat) : Int), 3)
        else (RuneError, 1)
      | _ => (RuneError, 1)
    else if b0.val < 245 then
      match rest with
      | b1 :: b2 :: b3 :: _ =>
        if acceptLo b0 ≤ b1.val && b1.val ≤ acceptHi b0 && isCont b2 && isCont b3 then
          ((((b0.val - 240) * 262144 + (b1.val - 128) * 4096 + (b2.val - 128) * 64
              + (b3.val - 128) : Nat) : Int), 4)
        else (RuneError, 1)
      | _ => (RuneError, 1)
    else (RuneError, 1)

/-- Loop of the conversion `[]rune(s)`; `fuel` bounds the number of runes. -/
def stringToRunesAux : Nat → GoString → List Rune
  | 0, _ => []
  | _ + 1, [] => []
  | fuel + 1, b :: rest =>
    let d := utf8_DecodeRuneInString (b :: rest)
    d.1 :: stringToRunesAux fuel ((b :: rest).drop d.2)

/-- The conversion `[]rune(s)`: decodes `s` rune by rune, every invalid byte giving U+FFFD.
Each step consumes at least one byte, so `s.length` steps are enough. -/
def stringToRunes (s : GoString) : List Rune := stringToRunesAux s.length s

/-- A rune that has a UTF-8 encoding: a Unicode scalar value. -/
def isScalar (r : Rune) : Bool := 0 ≤ r && r ≤ 1114111 && !(55296 ≤ r && r ≤ 57343)

/-- UTF-8 encoding of the scalar value `n` (`runtime.encoderune` on a valid rune). -/
def utf8_encode (n : Nat) : GoString :=
  if n < 128 then [toByte n]
  else if n < 2048 then [toByte (192 + n / 64), toByte (128 + n % 64)]
  else if n < 65536 then
    [toByte (224 + n / 4096), toByte (128 + n / 64 % 64), toByte (128 + n % 64)]
  else
    [toByte (240 + n / 262144), toByte (128 + n / 4096 % 64), toByte (128 + n / 64 % 64),
     toByte (128 + n % 64)]

/-- The conversion `string(r)` of a rune: its UTF-8 encoding, or the encoding of U+FFFD when
`r` is negative, above U+10FFFF or a surrogate. -/
def runeToString (r : Rune) : GoString :=
  if isScalar r then utf8_encode r.toNat else utf8_encode 65533

/-- The conversion `rune(i)` of an `int`: wraps to a signed 32-bit value. -/
def intToRune (i : Int) : Rune := (i + 2147483648) % 4294967296 - 2147483648

/-! ## Go standard library: `strings.TrimSpace` -/

/-- The table `asciiSpace` of package `strings`. -/
def asciiSpace (b : Byte) : Bool :=
  b.val = 9 || b.val = 10 || b.val = 11 || b.val = 12 || b.val = 13 || b.val = 32

/-- Go library `unicode.IsSpace`: the Latin-1 cases and the `White_Space` table. -/
def unicode_IsSpace (r : Rune) : Bool :=
  (9 ≤ r && r ≤ 13) || r = 32 || r = 133 || r = 160 || r = 5760 || (8192 ≤ r && r ≤ 8202)
    || r = 8232 || r = 8233 || r = 8239 || r = 8287 || r = 12288

/-- Go library `utf8.RuneStart`: the byte is not a continuation byte. -/
def utf8_RuneStart (b : Byte) : Bool := b.val / 64 != 2

/-- The backward scan of `utf8.DecodeLastRuneInString`: from index `start` down to `lim`,
stop at the first byte that can start a rune; returns the index reached (`lim - 1` when
none was found). Indices are integers as in the source. -/
def lastRuneScan (s : GoString) (lim : Int) : Nat → Int → Int
  | 0, start => start
  | fuel + 1, start =>
    if start ≥ lim then
      if utf8_RuneStart (s.getD start.toNat 0) then start
      else lastRuneScan s lim fuel (start - 1)
    else start

/-- Go library `utf8.DecodeLastRuneInString`: the last rune of `s` and its width. -/
def utf8_DecodeLastRuneInString (s : GoString) : Rune × Nat :=
  if s.length = 0 then (RuneError, 0)
  else
    let last := s.getD (s.length - 1) 0
    if last.val < 128 then ((last.val : Int), 1)
    else
      let lim : Int := max ((s.length : Int) - 4) 0
      let start := max (lastRuneScan s lim 4 ((s.length : Int) - 2)) 0
      let d := utf8_DecodeRuneInString (s.drop start.toNat)
      if start.toNat + d.2 ≠ s.length then (RuneError, 1) else d

/-- Go library `strings.TrimLeftFunc(s, unicode.IsSpace)`: drops leading white-space runes. -/
def trimLeftSpaceAux : Nat → GoString → GoString
  | 0, _ => []
  | _ + 1, [] => []
  | fuel + 1, b :: rest =>
    let d := utf8_DecodeRuneInString (b :: rest)
    if unicode_IsSpace d.1 then trimLeftSpaceAux fuel ((b :: rest).drop d.2) else b :: rest

/-- Go library `strings.TrimLeftFunc(s, unicode.IsSpace)`. -/
def strings_TrimLeftSpace (s : GoString) : GoString := trimLeftSpaceAux s.length s

/-- Go library `strings.lastIndexFunc(s, unicode.IsSpace, false)`: byte index of the last rune that is
not white space, or `-1`. -/
def lastIndexNotSpace : Nat → GoString → Int
  | 0, _ => -1
  | fuel + 1, s =>
    if s.length = 0 then -1
    else
      let d := utf8_DecodeLastRuneInString s
      let i := s.length - d.2
      if !unicode_IsSpace d.1 then (i : Int) else lastIndexNotSpace fuel (s.take i)

/-- Go library `strings.TrimRightFunc(s, unicode.IsSpace)`: drops trailing white-space runes. -/
def strings_TrimRightSpace (s : GoString) : GoString :=
  let i := lastIndexNotSpace s.length s
  if i ≥ 0 && (s.getD i.toNat 0).val ≥ 128 then
    s.take (i.toNat + (utf8_DecodeRuneInString (s.drop i.toNat)).2)
  else s.take (i + 1).toNat

/-- The second loop of `strings.TrimSpace`, on the reversed remainder: drop trailing ASCII
white space; at a non-ASCII byte fall back to `TrimRightFunc`. -/
def trimSpaceTail : GoString → GoString
  | [] => []
  | b :: rest =>
    if b.val ≥ 128 then strings_TrimRightSpace (b :: rest).reverse
    else if asciiSpace b then trimSpaceTail rest
    else (b :: rest).reverse

/-- Go library `strings.TrimSpace`: the first loop drops leading ASCII white space and falls back to
`TrimFunc(s[start:], unicode.IsSpace)` at the first non-ASCII byte; then the second loop
trims the end. -/
def strings_TrimSpace : GoString → GoString
  | [] => []
  | b :: rest =>
    if b.val ≥ 128 then strings_TrimRightSpace (strings_TrimLeftSpace (b :: rest))
    else if asciiSpace b then strings_TrimSpace rest
    else trimSpaceTail (b :: rest).reverse

/-! ## Go standard library: `strings.Split`, `strconv.Itoa`, `strconv.Atoi` -/

/-- Go library `strings.Split(s, sep)` for a one-byte separator: the pieces of `s` between the
occurrences of `sep`; always at least one piece. -/
def strings_Split (sep : Byte) : GoString → List GoString
  | [] => [[]]
  | b :: rest =>
    if b = sep then [] :: strings_Split sep rest
    else
      match strings_Split sep rest with
      | piece :: pieces => (b :: piece) :: pieces
      | [] => [[b]]

/-- Decimal digits of `n`, most significant first, in front of `acc`. -/
def formatDigits : Nat → Nat → GoString → GoString
  | 0, _, acc => acc
  | fuel + 1, n, acc =>
    if n < 10 then toByte (48 + n) :: acc
    else formatDigits fuel (n / 10) (toByte (48 + n % 10) :: acc)

/-- Go library `strconv.Itoa`: base-10 text, no leading zeros, `-` in front of a negative value. -/
def strconv_Itoa (i : Int) : GoString :=
  if i < 0 then 45 :: formatDigits (i.natAbs + 1) i.natAbs []
  else formatDigits (i.natAbs + 1) i.natAbs []

/-- An ASCII decimal digit, `'0'` to `'9'`. -/
def isDigit (b : Byte) : Bool := 48 ≤ b.val && b.val ≤ 57

/-- Value of a run of decimal digits read after `n`; `none` at a byte that is not a digit. -/
def parseDigits : Nat → GoString → Option Nat
  | n, [] => some n
  | n, b :: rest => if isDigit b then parseDigits (n * 10 + (b.val - 48)) rest else none

/-- Go library `strconv.Atoi`: an optional sign followed by one or more decimal digits; `none` stands
for a non-nil error (syntax, or value outside the range of `int`). -/
def strconv_Atoi (a : Arch) (s : GoString) : Option Int :=
  let neg : Bool := s.head? = some 45
  let body := if s.head? = some 45 ∨ s.head? = some 43 then s.tail else s
  if body = [] then none
  else
    match parseDigits 0 body with
    | none => none
    | some n =>
      if neg then (if n ≤ 2 ^ (a.intSize - 1) then some (-(n : Int)) else none)
      else (if n < 2 ^ (a.intSize - 1) then some (n : Int) else none)

/-! ## The conversion functions of `main.go` -/

/-- Source function `is_string_in_list_of_strings` (lines 54-61). -/
def is_string_in_list_of_strings (target : GoString) : List GoString → Bool
  | [] => false
  | str :: str_list => if str = target then true else is_string_in_list_of_strings target str_list

/-- Source function `conv_unicode_string_to_point_code` (lines 63-83). -/
def conv_unicode_string_to_point_code (unicode_character_string : GoString) :
    GoResult GoString :=
  if unicode_character_string = [] then .err .emptyString
  else if is_string_in_list_of_strings unicode_character_string bad_unicode_list then
    .err .backspaceCharacter
  else
    let trimmed := strings_TrimSpace unicode_character_string
    let unicode_string_as_runes := stringToRunes trimmed
    if unicode_string_as_runes.length > 1 then .err .onlyOneRune
    else
      match unicode_string_as_runes with
      | [] => .panic
      | unicode_character_rune :: _ => .ok ([85, 43] ++ strconv_Itoa unicode_character_rune)

/-- Source function `conv_point_code_to_unicode` (lines 85-102). -/
def conv_point_code_to_unicode (a : Arch) (point_code_string : GoString) : GoResult GoString :=
  if point_code_string = [] then .err .emptyString
  else if point_code_string = BACKSPACE_UNICODE then .err .backspaceCharacter
  else
    let trimmed := strings_TrimSpace point_code_string
    match strings_Split 43 trimmed with
    | _ :: point_code :: _ =>
      match strconv_Atoi a point_code with
      | none => .err .convFailed
      | some point_code_int => .ok (runeToString (intToRune point_code_int))
    | _ => .panic

/-! ## Reading decimal text (used to state the properties) -/

/-- The number written by a run of decimal digits, most significant digit first. -/
def decimalValue (ds : GoString) : Nat := ds.foldl (fun acc b => acc * 10 + (b.val - 48)) 0

/-- Canonical decimal text: one or more digits, no leading zero except for `"0"` itself. -/
def isCanonicalDecimal (ds : GoString) : Bool :=
  ds.all isDigit && (ds == [48] || (ds.head? != some 48 && ds != []))

/-! ## The list-selection pattern (line 173) -/

/-- The part `(.*?)\)` of the pattern, read just after an opening bracket: the lazy star
takes the fewest characters, so the capture ends at the first `)`; `.` does not match a
newline, so the attempt fails at a newline or at the end of the text.  Returns the capture.
The bytes `(`, `)` and newline never occur inside a multi-byte rune, so reading byte by byte
agrees with reading rune by rune. -/
def captureToClose : GoString → Option GoString
  | [] => none
  | b :: rest =>
    if b = 41 then some []
    else if b = 10 then none
    else (captureToClose rest).map (fun captured => b :: captured)

/-- The call `regexp.MustCompile("\((.*?)\)").FindStringSubmatch(s)`: the leftmost match,
as the slice `[whole match, first group]`; `nil` (the empty slice) when nothing matches. -/
def in_brackets_FindStringSubmatch : GoString → List GoString
  | [] => []
  | b :: rest =>
    if b = 40 then
      match captureToClose rest with
      | some captured => [40 :: (captured ++ [41]), captured]
      | none => in_brackets_FindStringSubmatch rest
    else in_brackets_FindStringSubmatch rest

/-! ## The window: two entries and their handlers (lines 142-209) -/

/-- The two `widget.Entry` fields. -/
inductive Field where
  /-- The entry `unicode_output_entry`, the character field. -/
  | output
  /-- The entry `unicode_code_point_entry`, the code-point field. -/
  | code_point
  deriving DecidableEq, Repr

/-- A record of one `SetText` call made by a handler. -/
structure SetTextCall where
  /-- the entry whose `SetText` was called -/
  target : Field
  /-- the text passed -/
  text : GoString
  /-- whether the call changed the text of the entry -/
  changed : Bool
  deriving DecidableEq, Repr

/-- State of the window: the `Text` of both entries, and the `SetText` calls made so far
(most recent first; the log is bookkeeping for the proofs, the program does not read it). -/
structure Gui where
  /-- The text `unicode_output_entry.Text`. -/
  unicode_output_entry : GoString
  /-- The text `unicode_code_point_entry.Text`. -/
  unicode_code_point_entry : GoString
  /-- the `SetText` calls so far -/
  log : List SetTextCall
  deriving DecidableEq, Repr

/-- Outcome of running an event handler to completion. -/
inductive Run where
  /-- the handler returned -/
  | finished (g : Gui)
  /-- a conversion panicked inside the handler; the process stops in state `g` -/
  | crashed (g : Gui)
  /-- the bound on the handler nesting depth was exhausted -/
  | outOfFuel
  deriving DecidableEq, Repr

/-- Text of an entry. -/
def Gui.text (g : Gui) : Field → GoString
  | .output => g.unicode_output_entry
  | .code_point => g.unicode_code_point_entry

/-- Store `text` in an entry. -/
def Gui.setField (g : Gui) (f : Field) (text : GoString) : Gui :=
  match f with
  | .output => { g with unicode_output_entry := text }
  | .code_point => { g with unicode_code_point_entry := text }

/-- The method `widget.Entry.SetText` of the Fyne toolkit: stores the text and, only when
the text differs from the current one, calls the entry's `OnChanged` with it. -/
def Entry_SetText (onChanged : Gui → GoString → Run) (f : Field) (g : Gui) (text : GoString) :
    Run :=
  let changed : Bool := g.text f != text
  let g1 : Gui := { g.setField f text with log := ⟨f, text, changed⟩ :: g.log }
  if changed then onChanged g1 text else .finished g1

/-- The two `OnChanged` handlers (lines 192-199 and 202-209); `fuel` bounds the nesting depth
of handler calls. -/
def OnChanged (a : Arch) : Nat → Field → Gui → GoString → Run
  | 0, _, _, _ => .outOfFuel
  | fuel + 1, .output, g, new_unicode_output =>
    match conv_unicode_string_to_point_code new_unicode_output with
    | .ok new_point_code =>
      Entry_SetText (OnChanged a fuel .code_point) .code_point g new_point_code
    | .err _ => .finished g
    | .panic => .crashed g
  | fuel + 1, .code_point, g, new_point_code =>
    match conv_point_code_to_unicode a new_point_code with
    | .ok new_unicode_output =>
      Entry_SetText (OnChanged a fuel .output) .output g new_unicode_output
    | .err _ => .finished g
    | .panic => .crashed g

/-- A user edit of an entry: the toolkit stores the new text and calls `OnChanged`. The log
restarts, so that it holds the programmatic `SetText` calls caused by this edit. -/
def userEdit (a : Arch) (fuel : Nat) (f : Field) (g : Gui) (text : GoString) : Run :=
  OnChanged a fuel f { g.setField f text with log := [] } text

/-- Source function `unicode_list.OnSelected` (lines 170-189). -/
def unicode_list_OnSelected (a : Arch) (fuel : Nat) (available_symbols : List GoString)
    (id : Nat) (g : Gui) : Run :=
  match available_symbols.get? id with
  | none => .crashed g
  | some selected_symbol =>
    match in_brackets_FindStringSubmatch selected_symbol with
    | _ :: first_in_brackets_find :: _ =>
      match Entry_SetText (OnChanged a fuel .output) .output g first_in_brackets_find with
      | .finished g1 =>
        match conv_unicode_string_to_point_code first_in_brackets_find with
        | .ok point_code => Entry_SetText (OnChanged a fuel .code_point) .code_point g1 point_code
        | .err _ => .finished g1
        | .panic => .crashed g1
      | stopped => stopped
    | _ => .finished g

/-- Number of logged `SetText` calls on `f` that changed its text. -/
def changesOf (f : Field) (log : List SetTextCall) : Nat :=
  (log.filter (fun c => c.target = f && c.changed)).length

/-- Number of logged `SetText` calls on `f`. -/
def callsOf (f : Field) (log : List SetTextCall) : Nat :=
  (log.filter (fun c => c.target = f)).length

/-! ## Lemmas: UTF-8 -/

theorem toByte_val (n : Nat) : (toByte n).val = n % 256 := rfl

theorem decode_ascii (b : Byte) (rest : GoString) (h : b.val < 128) :
    utf8_DecodeRuneInString (b :: rest) = ((b.val : Int), 1) := by
  simp [utf8_DecodeRuneInString, h]

theorem decode_two (b0 b1 : Byte) (rest : GoString) (h0 : 194 ≤ b0.val) (h0' : b0.val < 224)
    (h1 : 128 ≤ b1.val) (h1' : b1.val ≤ 191) :
    utf8_DecodeRuneInString (b0 :: b1 :: rest)
      = ((((b0.val - 192) * 64 + (b1.val - 128) : Nat) : Int), 2) := by
  have e1 : ¬ b0.val < 128 := by omega
  have e2 : ¬ b0.val < 194 := by omega
  simp [utf8_DecodeRuneInString, isCont, e1, e2, h0', h1, h1']

theorem decode_three (b0 b1 b2 : Byte) (rest : GoString) (h0 : 224 ≤ b0.val) (h0' : b0.val < 240)
    (h1 : acceptLo b0 ≤ b1.val) (h1' : b1.val ≤ acceptHi b0)
    (h2 : 128 ≤ b2.val) (h2' : b2.val ≤ 191) :
    utf8_DecodeRuneInString (b0 :: b1 :: b2 :: rest)
      = ((((b0.val - 224) * 4096 + (b1.val - 128) * 64 + (b2.val - 128) : Nat) : Int), 3) := by
  have e1 : ¬ b0.val < 128 := by omega
  have e2 : ¬ b0.val < 194 := by omega
  have e3 : ¬ b0.val < 224 := by omega
  simp [utf8_DecodeRuneInString, isCont, e1, e2, e3, h0', h1, h1', h2, h2']

theorem decode_four (b0 b1 b2 b3 : Byte) (rest : GoString) (h0 : 240 ≤ b0.val)
    (h0' : b0.val < 245) (h1 : acceptLo b0 ≤ b1.val) (h1' : b1.val ≤ acceptHi b0)
    (h2 : 128 ≤ b2.val) (h2' : b2.val ≤ 191) (h3 : 128 ≤ b3.val) (h3' : b3.val ≤ 191) :
    utf8_DecodeRuneInString (b0 :: b1 :: b2 :: b3 :: rest)
      = ((((b0.val - 240) * 262144 + (b1.val - 128) * 4096 + (b2.val - 128) * 64
            + (b3.val - 128) : Nat) : Int), 4) := by
  have e1 : ¬ b0.val < 128 := by omega
  have e2 : ¬ b0.val < 194 := by omega
  have e3 : ¬ b0.val < 224 := by omega
  have e4 : ¬ b0.val < 240 := by omega
  simp [utf8_DecodeRuneInString, isCont, e1, e2, e3, e4, h0', h1, h1', h2, h2', h3, h3']

theorem isScalar_iff (r : Int) :
    isScalar r = true ↔ 0 ≤ r ∧ r ≤ 1114111 ∧ ¬ (55296 ≤ r ∧ r ≤ 57343) := by
  simp only [isScalar, Bool.and_eq_true, decide_eq_true_eq, Bool.not_eq_true',
    Bool.and_eq_false_imp, decide_eq_false_iff_not]
  constructor
  · rintro ⟨⟨a, b⟩, c⟩
    exact ⟨a, b, fun ⟨x, y⟩ => c x y⟩
  · rintro ⟨a, b, c⟩
    exact ⟨⟨a, b⟩, fun x y => c ⟨x, y⟩⟩

theorem decode_encode (n : Nat) (h : isScalar (n : Int) = true) (rest : GoString) :
    utf8_DecodeRuneInString (utf8_encode n ++ rest) = ((n : Int), (utf8_encode n).length) := by
  rw [isScalar_iff] at h
  unfold utf8_encode
  split_ifs with h1 h2 h3
  · rw [List.singleton_append, decode_ascii _ _ (by rw [toByte_val]; omega)]
    simp only [toByte_val, List.length_singleton, Prod.mk.injEq, and_true]
    omega
  · simp only [List.cons_append, List.nil_append]
    rw [decode_two _ _ _ (by rw [toByte_val]; omega) (by rw [toByte_val]; omega)
      (by rw [toByte_val]; omega) (by rw [toByte_val]; omega)]
    simp only [toByte_val, List.length_cons, List.length_nil, Prod.mk.injEq, and_true]
    omega
  · simp only [List.cons_append, List.nil_append]
    rw [decode_three _ _ _ _ (by rw [toByte_val]; omega) (by rw [toByte_val]; omega)
      (by simp only [acceptLo, toByte_val]; split_ifs <;> omega)
      (by simp only [acceptHi, toByte_val]; split_ifs <;> omega)
      (by rw [toByte_val]; omega) (by rw [toByte_val]; omega)]
    simp only [toByte_val, List.length_cons, List.length_nil, Prod.mk.injEq, and_true]
    omega
  · simp only [List.cons_append, List.nil_append]
    rw [decode_four _ _ _ _ _ (by rw [toByte_val]; omega) (by rw [toByte_val]; omega)
      (by simp only [acceptLo, toByte_val]; split_ifs <;> omega)
      (by simp only [acceptHi, toByte_val]; split_ifs <;> omega)
      (by rw [toByte_val]; omega) (by rw [toByte_val]; omega)
      (by rw [toByte_val]; omega) (by rw [toByte_val]; omega)]
    simp only [toByte_val, List.length_cons, List.length_nil, Prod.mk.injEq, and_true]
    omega

theorem stringToRunesAux_nil (fuel : Nat) : stringToRunesAux fuel [] = [] := by
  cases fuel <;> rfl

theorem utf8_encode_length_pos (n : Nat) : 0 < (utf8_encode n).length := by
  unfold utf8_encode
  split_ifs <;> simp

theorem stringToRunes_encode (n : Nat) (h : isScalar (n : Int) = true) :
    stringToRunes (utf8_encode n) = [(n : Int)] := by
  have hd := decode_encode n h []
  rw [List.append_nil] at hd
  have hpos := utf8_encode_length_pos n
  unfold stringToRunes
  generalize utf8_encode n = s at hd hpos
  cases s with
  | nil => simp at hpos
  | cons b rest =>
    rw [List.length_cons, stringToRunesAux]
    simp only [hd, List.length_cons, List.drop_succ_cons, List.drop_length,
      stringToRunesAux_nil]

theorem isSpace_iff (r : Int) :
    unicode_IsSpace r = true ↔
      (9 ≤ r ∧ r ≤ 13) ∨ r = 32 ∨ r = 133 ∨ r = 160 ∨ r = 5760 ∨ (8192 ≤ r ∧ r ≤ 8202)
        ∨ r = 8232 ∨ r = 8233 ∨ r = 8239 ∨ r = 8287 ∨ r = 12288 := by
  simp only [unicode_IsSpace, Bool.or_eq_true, Bool.and_eq_true, decide_eq_true_eq]
  tauto

theorem trimSpaceTail_concat (xs : GoString) (b : Byte) (h : b.val < 128)
    (hs : asciiSpace b = false) : trimSpaceTail (xs ++ [b]).reverse = xs ++ [b] := by
  have e : ¬ b.val ≥ 128 := by omega
  rw [List.reverse_append, List.reverse_singleton, List.singleton_append, trimSpaceTail]
  simp [e, hs]

theorem TrimSpace_ascii_ends (c b : Byte) (xs : GoString) (hc : c.val < 128)
    (hcs : asciiSpace c = false) (hb : b.val < 128) (hbs : asciiSpace b = false) :
    strings_TrimSpace (c :: (xs ++ [b])) = c :: (xs ++ [b]) := by
  have e : ¬ c.val ≥ 128 := by omega
  rw [strings_TrimSpace]
  simp only [e, hcs, if_false, Bool.false_eq_true]
  rw [← List.cons_append]
  exact trimSpaceTail_concat _ _ hb hbs

theorem TrimSpace_ascii_single (c : Byte) (hc : c.val < 128) (hcs : asciiSpace c = false) :
    strings_TrimSpace [c] = [c] := by
  have e : ¬ c.val ≥ 128 := by omega
  rw [strings_TrimSpace]
  simp only [e, hcs, if_false, Bool.false_eq_true]
  exact trimSpaceTail_concat [] c hc hcs

theorem decodeLast_two (b0 b1 : Byte) (r : Int) (h1 : 128 ≤ b1.val)
    (h0 : utf8_RuneStart b0 = true) (hd : utf8_DecodeRuneInString [b0, b1] = (r, 2)) :
    utf8_DecodeLastRuneInString [b0, b1] = (r, 2) := by
  have e : ¬ b1.val < 128 := by omega
  simp [utf8_DecodeLastRuneInString, lastRuneScan, e, h0, hd]

theorem decodeLast_three (b0 b1 b2 : Byte) (r : Int) (h2 : 128 ≤ b2.val)
    (h1 : utf8_RuneStart b1 = false) (h0 : utf8_RuneStart b0 = true)
    (hd : utf8_DecodeRuneInString [b0, b1, b2] = (r, 3)) :
    utf8_DecodeLastRuneInString [b0, b1, b2] = (r, 3) := by
  have e : ¬ b2.val < 128 := by omega
  simp [utf8_DecodeLastRuneInString, lastRuneScan, e, h0, h1, hd]

theorem decodeLast_four (b0 b1 b2 b3 : Byte) (r : Int) (h3 : 128 ≤ b3.val)
    (h2 : utf8_RuneStart b2 = false) (h1 : utf8_RuneStart b1 = false)
    (h0 : utf8_RuneStart b0 = true)
    (hd : utf8_DecodeRuneInString [b0, b1, b2, b3] = (r, 4)) :
    utf8_DecodeLastRuneInString [b0, b1, b2, b3] = (r, 4) := by
  have e : ¬ b3.val < 128 := by omega
  simp [utf8_DecodeLastRuneInString, lastRuneScan, e, h0, h1, h2, hd]

theorem TrimSpace_multibyte (b0 : Byte) (rest : GoString) (r : Int) (h0 : 128 ≤ b0.val)
    (hd : utf8_DecodeRuneInString (b0 :: rest) = (r, (b0 :: rest).length))
    (hl : utf8_DecodeLastRuneInString (b0 :: rest) = (r, (b0 :: rest).length))
    (hs : unicode_IsSpace r = false) :
    strings_TrimSpace (b0 :: rest) = b0 :: rest := by
  have hleft : strings_TrimLeftSpace (b0 :: rest) = b0 :: rest := by
    simp [strings_TrimLeftSpace, trimLeftSpaceAux, hd, hs]
  have hidx : lastIndexNotSpace (b0 :: rest).length (b0 :: rest) = 0 := by
    rw [List.length_cons, lastIndexNotSpace]
    simp [hl, hs]
  have hright : strings_TrimRightSpace (b0 :: rest) = b0 :: rest := by
    unfold strings_TrimRightSpace
    simp only [hidx]
    simp [h0, hd]
  rw [strings_TrimSpace]
  simp only [h0, if_true, ge_iff_le, hleft, hright]

theorem TrimSpace_encode (n : Nat) (h : isScalar (n : Int) = true)
    (hs : unicode_IsSpace (n : Int) = false) :
    strings_TrimSpace (utf8_encode n) = utf8_encode n := by
  have hd := decode_encode n h []
  rw [List.append_nil] at hd
  have hsp : ¬ (unicode_IsSpace (n : Int) = true) := by simp [hs]
  rw [isSpace_iff] at hsp
  rw [isScalar_iff] at h
  unfold utf8_encode at hd ⊢
  split_ifs at hd ⊢ with h1 h2 h3
  · apply TrimSpace_ascii_single
    · rw [toByte_val]; omega
    · simp only [asciiSpace, toByte_val, Bool.or_eq_false_iff, decide_eq_false_iff_not]
      omega
  · refine TrimSpace_multibyte _ _ _ (by rw [toByte_val]; omega) hd ?_ hs
    exact decodeLast_two _ _ _ (by rw [toByte_val]; omega)
      (by simp only [utf8_RuneStart, toByte_val, bne_iff_ne, ne_eq]; omega) hd
  · refine TrimSpace_multibyte _ _ _ (by rw [toByte_val]; omega) hd ?_ hs
    exact decodeLast_three _ _ _ _ (by rw [toByte_val]; omega)
      (by simp only [utf8_RuneStart, toByte_val, bne_eq_false_iff_eq]; omega)
      (by simp only [utf8_RuneStart, toByte_val, bne_iff_ne, ne_eq]; omega) hd
  · refine TrimSpace_multibyte _ _ _ (by rw [toByte_val]; omega) hd ?_ hs
    exact decodeLast_four _ _ _ _ _ (by rw [toByte_val]; omega)
      (by simp only [utf8_RuneStart, toByte_val, bne_eq_false_iff_eq]; omega)
      (by simp only [utf8_RuneStart, toByte_val, bne_eq_false_iff_eq]; omega)
      (by simp only [utf8_RuneStart, toByte_val, bne_iff_ne, ne_eq]; omega) hd

theorem TrimSpace_encode_space (n : Nat) (hs : unicode_IsSpace (n : Int) = true) :
    strings_TrimSpace (utf8_encode n) = [] := by
  rw [isSpace_iff] at hs
  have : n = 9 ∨ n = 10 ∨ n = 11 ∨ n = 12 ∨ n = 13 ∨ n = 32 ∨ n = 133 ∨ n = 160 ∨ n = 5760
      ∨ n = 8192 ∨ n = 8193 ∨ n = 8194 ∨ n = 8195 ∨ n = 8196 ∨ n = 8197 ∨ n = 8198
      ∨ n = 8199 ∨ n = 8200 ∨ n = 8201 ∨ n = 8202 ∨ n = 8232 ∨ n = 8233 ∨ n = 8239
      ∨ n = 8287 ∨ n = 12288 := by omega
  rcases this with h | h | h | h | h | h | h | h | h | h | h | h | h | h | h | h | h | h | h
    | h | h | h | h | h | h <;> subst h <;> decide

/-! ## Lemmas: decimal text -/

theorem formatDigits_eq (n : Nat) : ∀ (fuel : Nat) (acc : GoString), n < fuel →
    formatDigits fuel n acc = formatDigits (n + 1) n [] ++ acc := by
  induction n using Nat.strong_induction_on with
  | _ n ih =>
    intro fuel acc hf
    obtain ⟨f, rfl⟩ : ∃ f, fuel = f + 1 := ⟨fuel - 1, by omega⟩
    by_cases h10 : n < 10
    · simp [formatDigits, h10]
    · have hlt : n / 10 < n := by omega
      have e1 : formatDigits (f + 1) n acc
          = formatDigits f (n / 10) (toByte (48 + n % 10) :: acc) := by
        rw [formatDigits, if_neg h10]
      have e2 : formatDigits (n + 1) n []
          = formatDigits n (n / 10) [toByte (48 + n % 10)] := by
        rw [formatDigits, if_neg h10]
      rw [e1, e2, ih (n / 10) hlt f _ (by omega), ih (n / 10) hlt n _ hlt]
      simp

theorem formatDigits_step (n : Nat) (h : ¬ n < 10) :
    formatDigits (n + 1) n [] = formatDigits (n / 10 + 1) (n / 10) [] ++ [toByte (48 + n % 10)] := by
  have e : formatDigits (n + 1) n [] = formatDigits n (n / 10) [toByte (48 + n % 10)] := by
    rw [formatDigits, if_neg h]
  rw [e, formatDigits_eq (n / 10) n _ (by omega)]

theorem parseDigits_eq_foldl (ds : GoString) : ∀ m : Nat, ds.all isDigit = true →
    parseDigits m ds = some (ds.foldl (fun acc b => acc * 10 + (b.val - 48)) m) := by
  induction ds with
  | nil => intro m _; rfl
  | cons b rest ih =>
    intro m h
    rw [List.all_cons, Bool.and_eq_true] at h
    rw [parseDigits, if_pos h.1, ih _ h.2, List.foldl_cons]

theorem parseDigits_decimalValue (ds : GoString) (h : ds.all isDigit = true) :
    parseDigits 0 ds = some (decimalValue ds) :=
  parseDigits_eq_foldl ds 0 h

theorem isDigit_toByte (d : Nat) (h : d < 10) : isDigit (toByte (48 + d)) = true := by
  simp only [isDigit, toByte_val, Bool.and_eq_true, decide_eq_true_eq]
  omega

theorem formatDigits_spec (n : Nat) :
    isCanonicalDecimal (formatDigits (n + 1) n []) = true
      ∧ decimalValue (formatDigits (n + 1) n []) = n
      ∧ (n ≠ 0 → (formatDigits (n + 1) n []).head? ≠ some 48) := by
  induction n using Nat.strong_induction_on with
  | _ n ih =>
    by_cases h10 : n < 10
    · have e : formatDigits (n + 1) n [] = [toByte (48 + n)] := by simp [formatDigits, h10]
      rw [e]
      have hb : (toByte (48 + n)).val = 48 + n := by rw [toByte_val]; omega
      refine ⟨?_, ?_, ?_⟩
      · interval_cases n <;> decide
      · simp [decimalValue, hb]
      · intro hn
        interval_cases n <;> first | exact absurd rfl hn | decide
    · have hlt : n / 10 < n := by omega
      obtain ⟨hc, hv, hh⟩ := ih (n / 10) hlt
      have hne : n / 10 ≠ 0 := by omega
      rw [formatDigits_step n h10]
      generalize formatDigits (n / 10 + 1) (n / 10) [] = ds at hc hv hh
      have hb : (toByte (48 + n % 10)).val = 48 + n % 10 := by rw [toByte_val]; omega
      have hd := isDigit_toByte (n % 10) (by omega)
      have hh' := hh hne
      cases ds with
      | nil => simp [isCanonicalDecimal] at hc
      | cons c cs =>
        simp only [List.head?_cons, ne_eq, Option.some.injEq] at hh'
        simp only [isCanonicalDecimal, List.all_cons, Bool.and_eq_true, Bool.or_eq_true,
          beq_iff_eq, bne_iff_ne, ne_eq, List.head?_cons, Option.some.injEq] at hc
        refine ⟨?_, ?_, ?_⟩
        · simp only [isCanonicalDecimal, List.cons_append, List.all_cons, List.all_append,
            List.all_nil, Bool.and_true, Bool.and_eq_true, Bool.or_eq_true, beq_iff_eq,
            bne_iff_ne, ne_eq, List.head?_cons, Option.some.injEq]
          exact ⟨⟨hc.1.1, hc.1.2, hd⟩, Or.inr ⟨hh', by simp⟩⟩
        · simp only [decimalValue, List.foldl_append, List.foldl_cons, List.foldl_nil, hb] at hv ⊢
          rw [hv]
          omega
        · intro _
          simpa using hh'

theorem isDigit_bounds (b : Byte) (h : isDigit b = true) : 48 ≤ b.val ∧ b.val ≤ 57 := by
  simpa [isDigit] using h

theorem Atoi_digits (a : Arch) (ds : GoString) (hne : ds ≠ []) (hd : ds.all isDigit = true) :
    strconv_Atoi a ds
      = if decimalValue ds < 2 ^ (a.intSize - 1) then some (decimalValue ds : Int) else none := by
  cases ds with
  | nil => exact absurd rfl hne
  | cons b rest =>
    have hb := isDigit_bounds b (by simp only [List.all_cons, Bool.and_eq_true] at hd; exact hd.1)
    have h45 : b ≠ 45 := by rintro rfl; exact absurd hb (by decide)
    have h43 : b ≠ 43 := by rintro rfl; exact absurd hb (by decide)
    simp only [strconv_Atoi, List.head?_cons, Option.some.injEq, h45, h43, or_self, if_false,
      decide_False, parseDigits_decimalValue _ hd, reduceCtorEq, Bool.false_eq_true]

theorem Split_no_sep (sep : Byte) (s : GoString) (h : sep ∉ s) : strings_Split sep s = [s] := by
  induction s with
  | nil => rfl
  | cons b rest ih =>
    rw [List.mem_cons, not_or] at h
    have hb : ¬ b = sep := fun e => h.1 e.symm
    rw [strings_Split, if_neg hb, ih h.2]

theorem plus_not_mem_digits (ds : GoString) (hd : ds.all isDigit = true) : (43 : Byte) ∉ ds := by
  intro hm
  exact absurd (isDigit_bounds 43 (List.all_eq_true.mp hd 43 hm)) (by decide)

theorem Split_U_plus (ds : GoString) (hd : ds.all isDigit = true) :
    strings_Split 43 (85 :: 43 :: ds) = [[85], ds] := by
  have e : ¬ ((85 : Byte) = 43) := by decide
  rw [strings_Split, if_neg e, strings_Split, if_pos rfl,
    Split_no_sep 43 ds (plus_not_mem_digits ds hd)]

theorem asciiSpace_digit (b : Byte) (h : isDigit b = true) : asciiSpace b = false := by
  have hb := isDigit_bounds b h
  simp only [asciiSpace, Bool.or_eq_false_iff, decide_eq_false_iff_not]
  omega

theorem TrimSpace_U_plus (ds : GoString) (hd : ds.all isDigit = true) :
    strings_TrimSpace (85 :: 43 :: ds) = 85 :: 43 :: ds := by
  rcases List.eq_nil_or_concat ds with h | ⟨xs, b, h⟩
  · subst h; decide
  · subst h
    have hb : isDigit b = true := by
      simp only [List.concat_eq_append, List.all_append, List.all_cons, List.all_nil,
        Bool.and_true, Bool.and_eq_true] at hd
      exact hd.2
    have hbb := isDigit_bounds b hb
    rw [List.concat_eq_append, ← List.cons_append]
    exact TrimSpace_ascii_ends 85 b (43 :: xs) (by decide) (by decide) (by omega)
      (asciiSpace_digit b hb)

theorem conv_point_code_U_plus (a : Arch) (ds : GoString) (hne : ds ≠ [])
    (hd : ds.all isDigit = true) (hb : ds ≠ [48, 48, 48, 56]) :
    conv_point_code_to_unicode a (85 :: 43 :: ds)
      = if decimalValue ds < 2 ^ (a.intSize - 1)
        then .ok (runeToString (intToRune (decimalValue ds))) else .err .convFailed := by
  have e1 : ¬ ((85 : Byte) :: 43 :: ds = []) := by simp
  have e2 : ¬ ((85 : Byte) :: 43 :: ds = BACKSPACE_UNICODE) := by
    intro h
    apply hb
    simpa [BACKSPACE_UNICODE] using h
  unfold conv_point_code_to_unicode
  rw [if_neg e1, if_neg e2]
  simp only [TrimSpace_U_plus ds hd, Split_U_plus ds hd, Atoi_digits a ds hne hd]
  split_ifs <;> rfl

/-! ## Lemmas: the two conversions -/

theorem utf8_encode_length_le (n : Nat) : (utf8_encode n).length ≤ 4 := by
  unfold utf8_encode
  split_ifs <;> simp

theorem mem_of_is_string_in_list (target : GoString) (l : List GoString)
    (h : is_string_in_list_of_strings target l = true) : target ∈ l := by
  induction l with
  | nil => simp [is_string_in_list_of_strings] at h
  | cons x xs ih =>
    rw [is_string_in_list_of_strings] at h
    by_cases e : x = target
    · rw [e]; exact List.mem_cons_self _ _
    · rw [if_neg e] at h
      exact List.mem_cons_of_mem _ (ih h)

theorem bad_unicode_trimmed_length (s : GoString) (h : s ∈ bad_unicode_list) :
    (strings_TrimSpace s).length = 6 := by
  simp only [bad_unicode_list, List.mem_cons, List.mem_singleton, List.not_mem_nil,
    or_false] at h
  rcases h with h | h | h | h | h | h <;> subst h <;> decide

theorem strconv_Itoa_nat (n : Nat) : strconv_Itoa (n : Int) = formatDigits (n + 1) n [] := by
  have e : ¬ ((n : Int) < 0) := by omega
  simp only [strconv_Itoa, e, if_false, Int.natAbs_ofNat]

theorem isCanonicalDecimal_spec (ds : GoString) (h : isCanonicalDecimal ds = true) :
    ds.all isDigit = true ∧ ds ≠ [] ∧ ds ≠ [48, 48, 48, 56] := by
  simp only [isCanonicalDecimal, Bool.and_eq_true, Bool.or_eq_true, beq_iff_eq, bne_iff_ne,
    ne_eq] at h
  refine ⟨h.1, ?_, ?_⟩
  · rcases h.2 with e | e
    · rw [e]; simp
    · exact e.2
  · rcases h.2 with e | e
    · rw [e]; decide
    · intro e'
      rw [e'] at e
      exact e.1 rfl

theorem conv_unicode_of_trimmed (s : GoString) (n : Nat) (h : isScalar (n : Int) = true)
    (ht : strings_TrimSpace s = utf8_encode n) :
    conv_unicode_string_to_point_code s = .ok (85 :: 43 :: strconv_Itoa (n : Int)) := by
  have hpos := utf8_encode_length_pos n
  have hle := utf8_encode_length_le n
  have e1 : ¬ (s = []) := by
    intro e
    rw [e] at ht
    rw [← ht] at hpos
    simp [strings_TrimSpace] at hpos
  have e2 : ¬ (is_string_in_list_of_strings s bad_unicode_list = true) := by
    intro e
    have := bad_unicode_trimmed_length s (mem_of_is_string_in_list _ _ e)
    rw [ht] at this
    omega
  unfold conv_unicode_string_to_point_code
  rw [if_neg e1, if_neg e2]
  simp only [ht, stringToRunes_encode n h, List.length_singleton, gt_iff_lt, lt_self_iff_false,
    if_false, List.cons_append, List.nil_append]

theorem conv_unicode_of_blank (s : GoString) (hne : s ≠ []) (ht : strings_TrimSpace s = []) :
    conv_unicode_string_to_point_code s = .panic := by
  have e2 : ¬ (is_string_in_list_of_strings s bad_unicode_list = true) := by
    intro e
    have := bad_unicode_trimmed_length s (mem_of_is_string_in_list _ _ e)
    rw [ht] at this
    simp at this
  unfold conv_unicode_string_to_point_code
  rw [if_neg hne, if_neg e2]
  simp [ht, stringToRunes, stringToRunesAux]

theorem runeToString_scalar (n : Nat) (h : isScalar (n : Int) = true) :
    runeToString (intToRune (n : Int)) = utf8_encode n := by
  have hb := (isScalar_iff _).mp h
  have e : intToRune (n : Int) = (n : Int) := by
    show ((n : Int) + 2147483648) % 4294967296 - 2147483648 = (n : Int)
    omega
  rw [e, runeToString, if_pos h, Int.toNat_ofNat]

theorem conv_point_code_of_Itoa (a : Arch) (n : Nat) (h : isScalar (n : Int) = true) :
    conv_point_code_to_unicode a (85 :: 43 :: strconv_Itoa (n : Int)) = .ok (utf8_encode n) := by
  have hb := (isScalar_iff _).mp h
  obtain ⟨hc, hv, _⟩ := formatDigits_spec n
  obtain ⟨hd, hne, hbs⟩ := isCanonicalDecimal_spec _ hc
  rw [strconv_Itoa_nat, conv_point_code_U_plus a _ hne hd hbs, hv]
  have hlt : n < 2 ^ (a.intSize - 1) := by
    cases a <;> simp only [Arch.intSize] <;> norm_num <;> omega
  rw [if_pos hlt, runeToString_scalar n h]

theorem trimLeftSpaceAux_subset (fuel : Nat) : ∀ (s : GoString) (b : Byte),
    b ∈ trimLeftSpaceAux fuel s → b ∈ s := by
  induction fuel with
  | zero => intro s b h; simp [trimLeftSpaceAux] at h
  | succ f ih =>
    intro s b h
    cases s with
    | nil => simp [trimLeftSpaceAux] at h
    | cons c rest =>
      rw [trimLeftSpaceAux] at h
      split_ifs at h
      · exact List.mem_of_mem_drop (ih _ _ h)
      · exact h

theorem TrimRightSpace_subset (s : GoString) (b : Byte) (h : b ∈ strings_TrimRightSpace s) :
    b ∈ s := by
  unfold strings_TrimRightSpace at h
  simp only at h
  split_ifs at h <;> exact List.mem_of_mem_take h

theorem trimSpaceTail_subset : ∀ (l : GoString) (b : Byte), b ∈ trimSpaceTail l → b ∈ l := by
  intro l
  induction l with
  | nil => intro b h; simp [trimSpaceTail] at h
  | cons c rest ih =>
    intro b h
    rw [trimSpaceTail] at h
    split_ifs at h
    · exact List.mem_reverse.mp (TrimRightSpace_subset _ _ h)
    · exact List.mem_cons_of_mem _ (ih b h)
    · exact List.mem_reverse.mp h

theorem TrimSpace_subset : ∀ (s : GoString) (b : Byte), b ∈ strings_TrimSpace s → b ∈ s := by
  intro s
  induction s with
  | nil => intro b h; simp [strings_TrimSpace] at h
  | cons c rest ih =>
    intro b h
    rw [strings_TrimSpace] at h
    split_ifs at h
    · exact trimLeftSpaceAux_subset _ _ _ (TrimRightSpace_subset _ _ h)
    · exact List.mem_cons_of_mem _ (ih b h)
    · exact List.mem_reverse.mp (trimSpaceTail_subset _ _ h)

/-! ## Lemmas: shape of successful conversions -/

theorem isScalar_RuneError : isScalar RuneError = true := by decide

theorem decode_isScalar (s : GoString) : isScalar (utf8_DecodeRuneInString s).1 = true := by
  match s with
  | [] => exact isScalar_RuneError
  | b0 :: rest =>
    unfold utf8_DecodeRuneInString
    dsimp only
    split_ifs with h1 h2 h3 h4 h5
    · rw [isScalar_iff]
      simp only
      omega
    · exact isScalar_RuneError
    · match rest with
      | [] => exact isScalar_RuneError
      | b1 :: _ =>
        simp only
        split_ifs with hc
        · simp only [isCont, Bool.and_eq_true, decide_eq_true_eq] at hc
          rw [isScalar_iff]
          simp only
          omega
        · exact isScalar_RuneError
    · match rest with
      | [] => exact isScalar_RuneError
      | [_] => exact isScalar_RuneError
      | b1 :: b2 :: _ =>
        simp only
        split_ifs with hc
        · simp only [isCont, acceptLo, acceptHi, Bool.and_eq_true, decide_eq_true_eq] at hc
          rw [isScalar_iff]
          simp only
          split_ifs at hc <;> omega
        · exact isScalar_RuneError
    · match rest with
      | [] => exact isScalar_RuneError
      | [_] => exact isScalar_RuneError
      | [_, _] => exact isScalar_RuneError
      | b1 :: b2 :: b3 :: _ =>
        simp only
        split_ifs with hc
        · simp only [isCont, acceptLo, acceptHi, Bool.and_eq_true, decide_eq_true_eq] at hc
          rw [isScalar_iff]
          simp only
          split_ifs at hc <;> omega
        · exact isScalar_RuneError
    · exact isScalar_RuneError

theorem stringToRunes_head_isScalar (s : GoString) (r : Rune) (rest : List Rune)
    (h : stringToRunes s = r :: rest) : isScalar r = true := by
  unfold stringToRunes at h
  cases s with
  | nil => simp [stringToRunesAux] at h
  | cons b bs =>
    rw [List.length_cons, stringToRunesAux] at h
    simp only [List.cons.injEq] at h
    rw [← h.1]
    exact decode_isScalar _

theorem conv_unicode_ok_shape (s t : GoString) (h : conv_unicode_string_to_point_code s = .ok t) :
    ∃ n : Nat, isScalar (n : Int) = true ∧ t = 85 :: 43 :: strconv_Itoa (n : Int) := by
  unfold conv_unicode_string_to_point_code at h
  split_ifs at h with h1 h2
  simp only at h
  split_ifs at h with h3
  cases hr : stringToRunes (strings_TrimSpace s) with
  | nil => rw [hr] at h; simp at h
  | cons r rest =>
    rw [hr] at h
    simp only [GoResult.ok.injEq] at h
    have hsc := stringToRunes_head_isScalar _ r rest hr
    have hnn := ((isScalar_iff r).mp hsc).1
    refine ⟨r.toNat, ?_, ?_⟩
    · rw [Int.toNat_of_nonneg hnn]; exact hsc
    · rw [Int.toNat_of_nonneg hnn, ← h]; rfl

theorem runeToString_shape (r : Rune) :
    ∃ m : Nat, isScalar (m : Int) = true ∧ runeToString r = utf8_encode m := by
  unfold runeToString
  split_ifs with h
  · have hnn := ((isScalar_iff r).mp h).1
    exact ⟨r.toNat, by rw [Int.toNat_of_nonneg hnn]; exact h, rfl⟩
  · exact ⟨65533, by decide, rfl⟩

theorem conv_point_code_ok_shape (a : Arch) (s c : GoString)
    (h : conv_point_code_to_unicode a s = .ok c) :
    ∃ m : Nat, isScalar (m : Int) = true ∧ c = utf8_encode m := by
  unfold conv_point_code_to_unicode at h
  split_ifs at h with h1 h2
  simp only at h
  split at h
  · split at h
    · simp at h
    · simp only [GoResult.ok.injEq] at h
      obtain ⟨m, hm, e⟩ := runeToString_shape (intToRune ‹Int›)
      exact ⟨m, hm, by rw [← h, e]⟩
  · simp at h

theorem conv_unicode_encode_cases (m : Nat) (h : isScalar (m : Int) = true) :
    conv_unicode_string_to_point_code (utf8_encode m) = .panic
      ∨ conv_unicode_string_to_point_code (utf8_encode m)
          = .ok (85 :: 43 :: strconv_Itoa (m : Int)) := by
  cases hs : unicode_IsSpace (m : Int) with
  | true =>
    exact Or.inl (conv_unicode_of_blank _
      (List.ne_nil_of_length_pos (utf8_encode_length_pos m)) (TrimSpace_encode_space m hs))
  | false => exact Or.inr (conv_unicode_of_trimmed _ m h (TrimSpace_encode m h hs))

theorem conv_back_and_forth (a : Arch) (t0 c t1 : GoString)
    (h0 : conv_point_code_to_unicode a t0 = .ok c)
    (h1 : conv_unicode_string_to_point_code c = .ok t1) :
    conv_point_code_to_unicode a t1 = .ok c := by
  obtain ⟨m, hm, rfl⟩ := conv_point_code_ok_shape a t0 c h0
  rcases conv_unicode_encode_cases m hm with e | e
  · rw [e] at h1; exact GoResult.noConfusion h1
  · rw [e] at h1
    simp only [GoResult.ok.injEq] at h1
    rw [← h1]
    exact conv_point_code_of_Itoa a m hm

theorem conv_forth_and_back (a : Arch) (c0 t1 c1 t2 : GoString)
    (h0 : conv_unicode_string_to_point_code c0 = .ok t1)
    (h1 : conv_point_code_to_unicode a t1 = .ok c1)
    (h2 : conv_unicode_string_to_point_code c1 = .ok t2) : t2 = t1 := by
  obtain ⟨n, hn, rfl⟩ := conv_unicode_ok_shape c0 t1 h0
  rw [conv_point_code_of_Itoa a n hn] at h1
  simp only [GoResult.ok.injEq] at h1
  subst h1
  rcases conv_unicode_encode_cases n hn with e | e
  · rw [e] at h2; exact GoResult.noConfusion h2
  · rw [e] at h2
    simp only [GoResult.ok.injEq] at h2
    exact h2.symm

/-! ## The conversions: properties -/

/-- C1 fails on the code as stated: the one-character string `" "` (U+0020) is not in the
forbidden list, yet `conv_unicode_string_to_point_code` returns no text for it (the index
`[0]` of the empty rune slice panics), so there is nothing to convert back. -/
theorem roundtrip_fails_on_space :
    utf8_encode 32 = [32] ∧ isScalar 32 = true
      ∧ is_string_in_list_of_strings [32] bad_unicode_list = false
      ∧ conv_unicode_string_to_point_code [32] = .panic
      ∧ ¬ ∃ t, conv_unicode_string_to_point_code [32] = .ok t
            ∧ conv_point_code_to_unicode .bits64 t = .ok [32] := by
  have hp : conv_unicode_string_to_point_code [32] = .panic := by decide
  refine ⟨by decide, by decide, by decide, hp, ?_⟩
  rintro ⟨t, h, _⟩
  rw [hp] at h
  exact GoResult.noConfusion h

/-- C1 (amended): for every Unicode scalar value `c` that `unicode.IsSpace` does not accept,
on either `int` width, `conv_unicode_string_to_point_code` on the one-character string of `c`
returns a text `t` and `conv_point_code_to_unicode t` returns that one-character string. -/
theorem roundtrip_non_space (a : Arch) (c : Nat) (h : isScalar (c : Int) = true)
    (hs : unicode_IsSpace (c : Int) = false) :
    ∃ t, conv_unicode_string_to_point_code (utf8_encode c) = .ok t
      ∧ conv_point_code_to_unicode a t = .ok (utf8_encode c) :=
  ⟨_, conv_unicode_of_trimmed _ c h (TrimSpace_encode c h hs), conv_point_code_of_Itoa a c h⟩

/-- Witness for C1 (amended): the euro sign, U+20AC. -/
theorem roundtrip_non_space_witness :
    isScalar 8364 = true ∧ unicode_IsSpace 8364 = false
      ∧ ∃ t, conv_unicode_string_to_point_code (utf8_encode 8364) = .ok t
          ∧ conv_point_code_to_unicode .bits64 t = .ok (utf8_encode 8364) :=
  ⟨by decide, by decide, roundtrip_non_space .bits64 8364 (by decide) (by decide)⟩

/-- C2: when the white-space-trimmed input is the encoding of one scalar value `n`,
`conv_unicode_string_to_point_code` returns, with a nil error, `"U+"` followed by canonical
decimal digits (no leading zero) whose value is `n`. -/
theorem conv_unicode_string_to_point_code_single (s : GoString) (n : Nat)
    (h : isScalar (n : Int) = true) (ht : strings_TrimSpace s = utf8_encode n) :
    ∃ ds, conv_unicode_string_to_point_code s = .ok (85 :: 43 :: ds)
      ∧ isCanonicalDecimal ds = true ∧ decimalValue ds = n := by
  refine ⟨strconv_Itoa (n : Int), conv_unicode_of_trimmed s n h ht, ?_⟩
  rw [strconv_Itoa_nat]
  exact ⟨(formatDigits_spec n).1, (formatDigits_spec n).2.1⟩

/-- Witness for C2: the input `" A\n"`. -/
theorem conv_unicode_string_to_point_code_single_witness :
    isScalar 65 = true ∧ strings_TrimSpace [32, 65, 10] = utf8_encode 65
      ∧ ∃ ds, conv_unicode_string_to_point_code [32, 65, 10] = .ok (85 :: 43 :: ds)
          ∧ isCanonicalDecimal ds = true ∧ decimalValue ds = 65 :=
  ⟨by decide, by decide,
    conv_unicode_string_to_point_code_single [32, 65, 10] 65 (by decide) (by decide)⟩

/-- C3 fails on the code as stated: `conv_point_code_to_unicode` compares its input with
`BACKSPACE_UNICODE` only, so on the forbidden literal `"U+2408"` it returns a character
(decimal 2408, U+0968) with a nil error. -/
theorem conv_point_code_to_unicode_accepts_forbidden :
    BACKSPACE_SYMBOL_UNICODE ∈ bad_unicode_list
      ∧ conv_point_code_to_unicode .bits64 BACKSPACE_SYMBOL_UNICODE = .ok (utf8_encode 2408)
      ∧ (conv_point_code_to_unicode .bits64 BACKSPACE_SYMBOL_UNICODE).failed = false := by
  decide

/-- C3 (amended): `conv_unicode_string_to_point_code` returns an error on each of the six
literals of `bad_unicode_list`; `conv_point_code_to_unicode` returns an error on `"U+0008"`
(its guard) and on `"U+232B"` and `"U+007F"` (not decimal), and on `"U+2408"`, `"U+2421"`
and `"U+2326"` it returns the characters with decimal code points 2408, 2421 and 2326. -/
theorem forbidden_literals (a : Arch) :
    conv_unicode_string_to_point_code BACKSPACE_UNICODE = .err .backspaceCharacter
      ∧ conv_unicode_string_to_point_code BACKSPACE_SYMBOL_UNICODE = .err .backspaceCharacter
      ∧ conv_unicode_string_to_point_code ERASE_TO_LEFT_UNICODE = .err .backspaceCharacter
      ∧ conv_unicode_string_to_point_code DELETE_UNICODE = .err .backspaceCharacter
      ∧ conv_unicode_string_to_point_code DELETE_SYMBOL_UNICODE = .err .backspaceCharacter
      ∧ conv_unicode_string_to_point_code ERASE_TO_RIGHT_UNICODE = .err .backspaceCharacter
      ∧ conv_point_code_to_unicode a BACKSPACE_UNICODE = .err .backspaceCharacter
      ∧ conv_point_code_to_unicode a ERASE_TO_LEFT_UNICODE = .err .convFailed
      ∧ conv_point_code_to_unicode a DELETE_UNICODE = .err .convFailed
      ∧ conv_point_code_to_unicode a BACKSPACE_SYMBOL_UNICODE = .ok (utf8_encode 2408)
      ∧ conv_point_code_to_unicode a DELETE_SYMBOL_UNICODE = .ok (utf8_encode 2421)
      ∧ conv_point_code_to_unicode a ERASE_TO_RIGHT_UNICODE = .ok (utf8_encode 2326) := by
  cases a <;> decide

/-- C4 (the code departs from it): on every non-empty input without a `+`,
`conv_point_code_to_unicode` panics at the index `[1]` of the one-element split instead of
returning an error. -/
theorem conv_point_code_to_unicode_no_plus (a : Arch) (s : GoString) (hne : s ≠ [])
    (hp : (43 : Byte) ∉ s) : conv_point_code_to_unicode a s = .panic := by
  have e2 : ¬ (s = BACKSPACE_UNICODE) := by
    intro e
    rw [e] at hp
    exact hp (by decide)
  have hpt : (43 : Byte) ∉ strings_TrimSpace s := fun h => hp (TrimSpace_subset s 43 h)
  unfold conv_point_code_to_unicode
  rw [if_neg hne, if_neg e2]
  simp only [Split_no_sep 43 _ hpt]

/-- Witness for C4: the input `"9999"`. -/
theorem conv_point_code_to_unicode_no_plus_witness :
    ([57, 57, 57, 57] : GoString) ≠ [] ∧ (43 : Byte) ∉ ([57, 57, 57, 57] : GoString)
      ∧ conv_point_code_to_unicode .bits64 [57, 57, 57, 57] = .panic :=
  ⟨by decide, by decide,
    conv_point_code_to_unicode_no_plus .bits64 [57, 57, 57, 57] (by decide) (by decide)⟩

/-- C5 (the code departs from it): the empty string gives an error, but every non-empty
input that trims to the empty text makes `conv_unicode_string_to_point_code` panic at the
index `[0]` of the empty rune slice instead of returning an error. -/
theorem conv_unicode_string_to_point_code_blank (s : GoString) (hne : s ≠ [])
    (ht : strings_TrimSpace s = []) :
    conv_unicode_string_to_point_code [] = .err .emptyString
      ∧ conv_unicode_string_to_point_code s = .panic :=
  ⟨rfl, conv_unicode_of_blank s hne ht⟩

/-- Witness for C5: the input `" "`. -/
theorem conv_unicode_string_to_point_code_blank_witness :
    ([32] : GoString) ≠ [] ∧ strings_TrimSpace [32] = []
      ∧ conv_unicode_string_to_point_code [] = .err .emptyString
      ∧ conv_unicode_string_to_point_code [32] = .panic :=
  ⟨by decide, by decide, conv_unicode_string_to_point_code_blank [32] (by decide) (by decide)⟩

/-- C6 fails on the code as stated: `"U+1114112"` (one above the largest scalar value) and
`"U+55296"` (a surrogate) are accepted with a nil error and give U+FFFD, which is not the
character of the parsed integer. -/
theorem conv_point_code_to_unicode_accepts_non_scalar :
    decimalValue [49, 49, 49, 52, 49, 49, 50] = 1114112 ∧ isScalar 1114112 = false
      ∧ conv_point_code_to_unicode .bits64 [85, 43, 49, 49, 49, 52, 49, 49, 50]
          = .ok (utf8_encode 65533)
      ∧ conv_point_code_to_unicode .bits32 [85, 43, 49, 49, 49, 52, 49, 49, 50]
          = .ok (utf8_encode 65533)
      ∧ decimalValue [53, 53, 50, 57, 54] = 55296 ∧ isScalar 55296 = false
      ∧ conv_point_code_to_unicode .bits64 [85, 43, 53, 53, 50, 57, 54]
          = .ok (utf8_encode 65533) := by
  decide

/-- C6 (amended): on `"U+"` followed by one or more decimal digits (other than the literal
`"U+0008"`) of value `v`, `conv_point_code_to_unicode` returns an error exactly when `v` does
not fit `int`; when `v` is a scalar value it returns the character `v`; otherwise it returns,
with a nil error, `string(rune(v))`, which is U+FFFD whenever `v` is below `2^31`. -/
theorem conv_point_code_to_unicode_decimal (a : Arch) (ds : GoString) (hne : ds ≠ [])
    (hd : ds.all isDigit = true) (hb : ds ≠ [48, 48, 48, 56]) :
    (2 ^ (a.intSize - 1) ≤ decimalValue ds →
        conv_point_code_to_unicode a (85 :: 43 :: ds) = .err .convFailed)
      ∧ (isScalar (decimalValue ds : Int) = true →
        conv_point_code_to_unicode a (85 :: 43 :: ds) = .ok (utf8_encode (decimalValue ds)))
      ∧ (decimalValue ds < 2 ^ (a.intSize - 1) →
        conv_point_code_to_unicode a (85 :: 43 :: ds)
          = .ok (runeToString (intToRune (decimalValue ds : Int))))
      ∧ (decimalValue ds < 2 ^ 31 → isScalar (decimalValue ds : Int) = false →
        conv_point_code_to_unicode a (85 :: 43 :: ds) = .ok (utf8_encode 65533)) := by
  have key := conv_point_code_U_plus a ds hne hd hb
  have hw : (2 : Nat) ^ 31 ≤ 2 ^ (a.intSize - 1) := by
    cases a <;> simp only [Arch.intSize] <;> norm_num
  refine ⟨?_, ?_, ?_, ?_⟩
  · intro h
    rw [key, if_neg (by omega)]
  · intro h
    have hs := (isScalar_iff _).mp h
    rw [key, if_pos (by omega), runeToString_scalar _ h]
  · intro h
    rw [key, if_pos h]
  · intro h hns
    have e : intToRune (decimalValue ds : Int) = (decimalValue ds : Int) := by
      show ((decimalValue ds : Int) + 2147483648) % 4294967296 - 2147483648 = _
      omega
    rw [key, if_pos (by omega), e, runeToString, hns]
    rfl

/-- Witness for C6 (amended): the input `"U+9999999999999999999"`, whose
value does not fit a 64-bit `int`. -/
theorem conv_point_code_to_unicode_decimal_witness :
    conv_point_code_to_unicode .bits64
        (85 :: 43 :: [57, 57, 57, 57, 57, 57, 57, 57, 57, 57, 57, 57, 57, 57, 57, 57, 57, 57, 57])
      = .err .convFailed :=
  (conv_point_code_to_unicode_decimal .bits64
    [57, 57, 57, 57, 57, 57, 57, 57, 57, 57, 57, 57, 57, 57, 57, 57, 57, 57, 57]
    (by decide) (by decide) (by decide)).1 (by decide)

/-- C7: when the trimmed input decodes to two or more runes,
`conv_unicode_string_to_point_code` returns an error and no text. -/
theorem conv_unicode_string_to_point_code_multi (s : GoString)
    (h : 2 ≤ (stringToRunes (strings_TrimSpace s)).length) :
    ∃ e, conv_unicode_string_to_point_code s = .err e := by
  unfold conv_unicode_string_to_point_code
  split_ifs with h1 h2
  · exact ⟨_, rfl⟩
  · exact ⟨_, rfl⟩
  · have h3 : (stringToRunes (strings_TrimSpace s)).length > 1 := by omega
    simp only [h3, if_true]
    exact ⟨_, rfl⟩

/-- Witness for C7: the input `"ab"`. -/
theorem conv_unicode_string_to_point_code_multi_witness :
    2 ≤ (stringToRunes (strings_TrimSpace [97, 98])).length
      ∧ ∃ e, conv_unicode_string_to_point_code [97, 98] = .err e :=
  ⟨by decide, conv_unicode_string_to_point_code_multi [97, 98] (by decide)⟩

/-- C10: for every scalar value `c` outside the white-space set of `strings.TrimSpace`, on
either `int` width, converting the one-character string of `c` to its code-point text and
back succeeds and returns that string; for `c` inside the set the first conversion panics,
because the text is trimmed to nothing before its first rune is read. -/
theorem roundtrip_outside_white_space (a : Arch) (c : Nat) (h : isScalar (c : Int) = true) :
    (¬ ((9 ≤ c ∧ c ≤ 13) ∨ c = 32 ∨ c = 133 ∨ c = 160 ∨ c = 5760 ∨ (8192 ≤ c ∧ c ≤ 8202)
          ∨ c = 8232 ∨ c = 8233 ∨ c = 8239 ∨ c = 8287 ∨ c = 12288) →
        conv_unicode_string_to_point_code (utf8_encode c) = .ok (85 :: 43 :: strconv_Itoa c)
          ∧ conv_point_code_to_unicode a (85 :: 43 :: strconv_Itoa c) = .ok (utf8_encode c))
      ∧ (((9 ≤ c ∧ c ≤ 13) ∨ c = 32 ∨ c = 133 ∨ c = 160 ∨ c = 5760 ∨ (8192 ≤ c ∧ c ≤ 8202)
          ∨ c = 8232 ∨ c = 8233 ∨ c = 8239 ∨ c = 8287 ∨ c = 12288) →
        conv_unicode_string_to_point_code (utf8_encode c) = .panic) := by
  constructor
  · intro hw
    have hs : unicode_IsSpace (c : Int) = false := by
      rw [Bool.eq_false_iff, ne_eq, isSpace_iff]
      omega
    exact ⟨conv_unicode_of_trimmed _ c h (TrimSpace_encode c h hs), conv_point_code_of_Itoa a c h⟩
  · intro hw
    have hs : unicode_IsSpace (c : Int) = true := by
      rw [isSpace_iff]
      omega
    exact conv_unicode_of_blank _ (List.ne_nil_of_length_pos (utf8_encode_length_pos c))
      (TrimSpace_encode_space c hs)

/-- Witness for C10: the letter `A` (U+0041), on a 32-bit `int`. -/
theorem roundtrip_outside_white_space_witness :
    isScalar 65 = true
      ∧ conv_unicode_string_to_point_code (utf8_encode 65) = .ok (85 :: 43 :: strconv_Itoa 65)
      ∧ conv_point_code_to_unicode .bits32 (85 :: 43 :: strconv_Itoa 65) = .ok (utf8_encode 65) :=
  ⟨by decide, (roundtrip_outside_white_space .bits32 65 (by decide)).1 (by decide)⟩

/-! ## The list-selection pattern: properties -/

theorem captureToClose_append (mid post : GoString) (h41 : (41 : Byte) ∉ mid)
    (h10 : (10 : Byte) ∉ mid) : captureToClose (mid ++ 41 :: post) = some mid := by
  induction mid with
  | nil => simp [captureToClose]
  | cons b rest ih =>
    rw [List.mem_cons, not_or] at h41 h10
    have e1 : ¬ b = 41 := fun e => h41.1 e.symm
    have e2 : ¬ b = 10 := fun e => h10.1 e.symm
    rw [List.cons_append, captureToClose, if_neg e1, if_neg e2, ih h41.2 h10.2]
    rfl

theorem captureToClose_some : ∀ (s captured : GoString), captureToClose s = some captured →
    ∃ post, s = captured ++ 41 :: post := by
  intro s
  induction s with
  | nil => intro c h; simp [captureToClose] at h
  | cons b rest ih =>
    intro c h
    rw [captureToClose] at h
    split_ifs at h with e1 e2
    · rw [e1]
      simp only [Option.some.injEq] at h
      exact ⟨rest, by rw [← h]; rfl⟩
    · cases hc : captureToClose rest with
      | none => rw [hc] at h; simp at h
      | some c' =>
        rw [hc] at h
        simp only [Option.map_some', Option.some.injEq] at h
        obtain ⟨post, hp⟩ := ih c' hc
        exact ⟨post, by rw [← h, hp]; rfl⟩

theorem in_brackets_skip (pre rest : GoString) (h : (40 : Byte) ∉ pre) :
    in_brackets_FindStringSubmatch (pre ++ rest) = in_brackets_FindStringSubmatch rest := by
  induction pre with
  | nil => rfl
  | cons b xs ih =>
    rw [List.mem_cons, not_or] at h
    have e : ¬ b = 40 := fun e => h.1 e.symm
    rw [List.cons_append, in_brackets_FindStringSubmatch, if_neg e, ih h.2]

theorem in_brackets_none (entry : GoString)
    (h : ¬ ∃ pre mid post, entry = pre ++ 40 :: (mid ++ 41 :: post)) :
    in_brackets_FindStringSubmatch entry = [] := by
  induction entry with
  | nil => rfl
  | cons b rest ih =>
    have hrest : ¬ ∃ pre mid post, rest = pre ++ 40 :: (mid ++ 41 :: post) := by
      rintro ⟨pre, mid, post, e⟩
      exact h ⟨b :: pre, mid, post, by rw [e]; rfl⟩
    rw [in_brackets_FindStringSubmatch]
    split_ifs with e
    · cases hc : captureToClose rest with
      | none => simpa using ih hrest
      | some c =>
        obtain ⟨post, hp⟩ := captureToClose_some rest c hc
        exact absurd ⟨[], c, post, by rw [e, hp]; rfl⟩ h
    · exact ih hrest

/-- C8: for an entry without a newline, when the entry has a `(` followed later by a `)`
the pattern captures exactly the text `mid` between the first `(` and the first `)` after
it, and `unicode_list.OnSelected` takes that capture: it calls `SetText(mid)` on the
character field and then converts `mid` for the code-point field; when the entry has no such
span `FindStringSubmatch` returns nothing and `unicode_list.OnSelected` leaves both fields
(and the whole state) unchanged. -/
theorem in_brackets_extract (entry : GoString) (hnl : (10 : Byte) ∉ entry) :
    (∀ pre mid post : GoString, entry = pre ++ 40 :: (mid ++ 41 :: post) →
        (40 : Byte) ∉ pre → (41 : Byte) ∉ mid →
        in_brackets_FindStringSubmatch entry = [40 :: (mid ++ [41]), mid]
          ∧ ∀ (a : Arch) (fuel : Nat) (available_symbols : List GoString) (id : Nat) (g : Gui),
              available_symbols.get? id = some entry →
              unicode_list_OnSelected a fuel available_symbols id g
                = match Entry_SetText (OnChanged a fuel .output) .output g mid with
                  | .finished g1 =>
                    match conv_unicode_string_to_point_code mid with
                    | .ok point_code =>
                      Entry_SetText (OnChanged a fuel .code_point) .code_point g1 point_code
                    | .err _ => .finished g1
                    | .panic => .crashed g1
                  | stopped => stopped)
      ∧ ((¬ ∃ pre mid post : GoString, entry = pre ++ 40 :: (mid ++ 41 :: post)) →
        in_brackets_FindStringSubmatch entry = []
          ∧ ∀ (a : Arch) (fuel : Nat) (available_symbols : List GoString) (id : Nat) (g : Gui),
              available_symbols.get? id = some entry →
              unicode_list_OnSelected a fuel available_symbols id g = .finished g) := by
  constructor
  · intro pre mid post he h40 h41
    have h10 : (10 : Byte) ∉ mid := by
      intro hm
      apply hnl
      rw [he]
      simp [hm]
    have hfind : in_brackets_FindStringSubmatch entry = [40 :: (mid ++ [41]), mid] := by
      rw [he, in_brackets_skip pre _ h40, in_brackets_FindStringSubmatch, if_pos rfl,
        captureToClose_append mid post h41 h10]
    refine ⟨hfind, ?_⟩
    intro a fuel syms id g hget
    simp only [unicode_list_OnSelected, hget, hfind]
  · intro hno
    have hn := in_brackets_none entry hno
    refine ⟨hn, ?_⟩
    intro a fuel syms id g hget
    simp only [unicode_list_OnSelected, hget, hn]

/-- Witness for C8: the entries `"Backspace (⌫)"` and `"NoParens"`; selecting the first in
the empty window sets the character field to `"⌫"` and the code-point field to `"U+9003"`. -/
theorem in_brackets_extract_witness :
    in_brackets_FindStringSubmatch
        [66, 97, 99, 107, 115, 112, 97, 99, 101, 32, 40, 226, 140, 171, 41]
        = [[40, 226, 140, 171, 41], [226, 140, 171]]
      ∧ unicode_list_OnSelected .bits64 4
          [[66, 97, 99, 107, 115, 112, 97, 99, 101, 32, 40, 226, 140, 171, 41]] 0 ⟨[], [], []⟩
        = .finished ⟨[226, 140, 171], [85, 43, 57, 48, 48, 51],
            [⟨.code_point, [85, 43, 57, 48, 48, 51], false⟩, ⟨.output, [226, 140, 171], false⟩,
             ⟨.code_point, [85, 43, 57, 48, 48, 51], true⟩, ⟨.output, [226, 140, 171], true⟩]⟩
      ∧ in_brackets_FindStringSubmatch [78, 111, 80, 97, 114, 101, 110, 115] = [] :=
  ⟨((in_brackets_extract [66, 97, 99, 107, 115, 112, 97, 99, 101, 32, 40, 226, 140, 171, 41]
      (by decide)).1 [66, 97, 99, 107, 115, 112, 97, 99, 101, 32] [226, 140, 171] []
      (by decide) (by decide) (by decide)).1,
    (((in_brackets_extract [66, 97, 99, 107, 115, 112, 97, 99, 101, 32, 40, 226, 140, 171, 41]
      (by decide)).1 [66, 97, 99, 107, 115, 112, 97, 99, 101, 32] [226, 140, 171] []
      (by decide) (by decide) (by decide)).2 .bits64 4
        [[66, 97, 99, 107, 115, 112, 97, 99, 101, 32, 40, 226, 140, 171, 41]] 0 ⟨[], [], []⟩
        (by decide)).trans (by decide),
    ((in_brackets_extract [78, 111, 80, 97, 114, 101, 110, 115] (by decide)).2
      (by
        rintro ⟨pre, mid, post, e⟩
        have hm : (40 : Byte) ∈ ([78, 111, 80, 97, 114, 101, 110, 115] : GoString) := by
          rw [e]; simp
        exact absurd hm (by decide))).1⟩

/-! ## The handlers: properties -/

theorem OnChanged_output_step (a : Arch) (k : Nat) (o p : GoString) (l : List SetTextCall)
    (c : GoString) :
    OnChanged a (k + 1) .output ⟨o, p, l⟩ c
      = match conv_unicode_string_to_point_code c with
        | .ok t =>
          if p = t then .finished ⟨o, t, ⟨.code_point, t, false⟩ :: l⟩
          else OnChanged a k .code_point ⟨o, t, ⟨.code_point, t, true⟩ :: l⟩ t
        | .err _ => .finished ⟨o, p, l⟩
        | .panic => .crashed ⟨o, p, l⟩ := by
  rw [OnChanged]
  cases conv_unicode_string_to_point_code c with
  | ok t =>
    by_cases e : p = t
    · simp [Entry_SetText, Gui.text, Gui.setField, e]
    · have e' : (p != t) = true := by simpa using e
      simp [Entry_SetText, Gui.text, Gui.setField, e, e']
  | err _ => rfl
  | panic => rfl

theorem OnChanged_code_point_step (a : Arch) (k : Nat) (o p : GoString)
    (l : List SetTextCall) (t : GoString) :
    OnChanged a (k + 1) .code_point ⟨o, p, l⟩ t
      = match conv_point_code_to_unicode a t with
        | .ok c =>
          if o = c then .finished ⟨c, p, ⟨.output, c, false⟩ :: l⟩
          else OnChanged a k .output ⟨c, p, ⟨.output, c, true⟩ :: l⟩ c
        | .err _ => .finished ⟨o, p, l⟩
        | .panic => .crashed ⟨o, p, l⟩ := by
  rw [OnChanged]
  cases conv_point_code_to_unicode a t with
  | ok c =>
    by_cases e : o = c
    · simp [Entry_SetText, Gui.text, Gui.setField, e]
    · have e' : (o != c) = true := by simpa using e
      simp [Entry_SetText, Gui.text, Gui.setField, e, e']
  | err _ => rfl
  | panic => rfl

theorem userEdit_code_point_settles (a : Arch) (fuel : Nat) (o p : GoString)
    (l : List SetTextCall) (text : GoString) :
    ∃ g, (userEdit a (fuel + 4) .code_point ⟨o, p, l⟩ text = .finished g
          ∨ userEdit a (fuel + 4) .code_point ⟨o, p, l⟩ text = .crashed g)
      ∧ changesOf .output g.log ≤ 1 ∧ changesOf .code_point g.log ≤ 1
      ∧ g.log.length ≤ 3
      ∧ (∀ c, conv_point_code_to_unicode a text = .ok c →
          g.unicode_output_entry = c ∧ ∃ changed, g.log.getLast? = some ⟨.output, c, changed⟩)
      ∧ (∀ e, conv_point_code_to_unicode a text = .err e →
          g = ⟨o, text, []⟩ ∧ userEdit a (fuel + 4) .code_point ⟨o, p, l⟩ text = .finished g) := by
  simp only [userEdit, Gui.setField]
  rw [OnChanged_code_point_step]
  cases h0 : conv_point_code_to_unicode a text with
  | err e =>
    exact ⟨_, Or.inl rfl, by simp [changesOf], by simp [changesOf], by simp,
      fun c hc => GoResult.noConfusion hc, fun _ _ => ⟨rfl, rfl⟩⟩
  | panic =>
    exact ⟨_, Or.inr rfl, by simp [changesOf], by simp [changesOf], by simp,
      fun c hc => GoResult.noConfusion hc, fun _ he => GoResult.noConfusion he⟩
  | ok c =>
    simp only
    by_cases e0 : o = c
    · rw [if_pos e0]
      refine ⟨_, Or.inl rfl, by simp [changesOf], by simp [changesOf], by simp, ?_,
        fun _ he => GoResult.noConfusion he⟩
      intro c1 hc
      injection hc with hc
      subst hc
      exact ⟨rfl, _, rfl⟩
    · rw [if_neg e0, OnChanged_output_step]
      cases h1 : conv_unicode_string_to_point_code c with
      | err e =>
        refine ⟨_, Or.inl rfl, by simp [changesOf], by simp [changesOf], by simp, ?_,
          fun _ he => GoResult.noConfusion he⟩
        intro c1 hc
        injection hc with hc
        subst hc
        exact ⟨rfl, _, rfl⟩
      | panic =>
        refine ⟨_, Or.inr rfl, by simp [changesOf], by simp [changesOf], by simp, ?_,
          fun _ he => GoResult.noConfusion he⟩
        intro c1 hc
        injection hc with hc
        subst hc
        exact ⟨rfl, _, rfl⟩
      | ok t1 =>
        simp only
        by_cases e1 : text = t1
        · rw [if_pos e1]
          refine ⟨_, Or.inl rfl, by simp [changesOf], by simp [changesOf], by simp, ?_,
            fun _ he => GoResult.noConfusion he⟩
          intro c1 hc
          injection hc with hc
          subst hc
          exact ⟨rfl, _, rfl⟩
        · rw [if_neg e1, OnChanged_code_point_step, conv_back_and_forth a text c t1 h0 h1]
          simp only [if_true]
          refine ⟨_, Or.inl rfl, by simp [changesOf], by simp [changesOf], by simp, ?_,
            fun _ he => GoResult.noConfusion he⟩
          intro c1 hc
          injection hc with hc
          subst hc
          exact ⟨rfl, _, rfl⟩

theorem userEdit_output_settles (a : Arch) (fuel : Nat) (o p : GoString)
    (l : List SetTextCall) (text : GoString) :
    ∃ g, (userEdit a (fuel + 4) .output ⟨o, p, l⟩ text = .finished g
          ∨ userEdit a (fuel + 4) .output ⟨o, p, l⟩ text = .crashed g)
      ∧ changesOf .output g.log ≤ 1 ∧ changesOf .code_point g.log ≤ 1
      ∧ g.log.length ≤ 3
      ∧ (∀ t, conv_unicode_string_to_point_code text = .ok t →
          g.unicode_code_point_entry = t
            ∧ ∃ changed, g.log.getLast? = some ⟨.code_point, t, changed⟩)
      ∧ (∀ e, conv_unicode_string_to_point_code text = .err e →
          g = ⟨text, p, []⟩ ∧ userEdit a (fuel + 4) .output ⟨o, p, l⟩ text = .finished g) := by
  simp only [userEdit, Gui.setField]
  rw [OnChanged_output_step]
  cases h0 : conv_unicode_string_to_point_code text with
  | err e =>
    exact ⟨_, Or.inl rfl, by simp [changesOf], by simp [changesOf], by simp,
      fun c hc => GoResult.noConfusion hc, fun _ _ => ⟨rfl, rfl⟩⟩
  | panic =>
    exact ⟨_, Or.inr rfl, by simp [changesOf], by simp [changesOf], by simp,
      fun c hc => GoResult.noConfusion hc, fun _ he => GoResult.noConfusion he⟩
  | ok t1 =>
    simp only
    by_cases e0 : p = t1
    · rw [if_pos e0]
      refine ⟨_, Or.inl rfl, by simp [changesOf], by simp [changesOf], by simp, ?_,
        fun _ he => GoResult.noConfusion he⟩
      intro t hc
      injection hc with hc
      subst hc
      exact ⟨rfl, _, rfl⟩
    · rw [if_neg e0, OnChanged_code_point_step]
      cases h1 : conv_point_code_to_unicode a t1 with
      | err e =>
        refine ⟨_, Or.inl rfl, by simp [changesOf], by simp [changesOf], by simp, ?_,
          fun _ he => GoResult.noConfusion he⟩
        intro t hc
        injection hc with hc
        subst hc
        exact ⟨rfl, _, rfl⟩
      | panic =>
        refine ⟨_, Or.inr rfl, by simp [changesOf], by simp [changesOf], by simp, ?_,
          fun _ he => GoResult.noConfusion he⟩
        intro t hc
        injection hc with hc
        subst hc
        exact ⟨rfl, _, rfl⟩
      | ok c1 =>
        simp only
        by_cases e1 : text = c1
        · rw [if_pos e1]
          refine ⟨_, Or.inl rfl, by simp [changesOf], by simp [changesOf], by simp, ?_,
            fun _ he => GoResult.noConfusion he⟩
          intro t hc
          injection hc with hc
          subst hc
          exact ⟨rfl, _, rfl⟩
        · rw [if_neg e1, OnChanged_output_step]
          cases h2 : conv_unicode_string_to_point_code c1 with
          | err e =>
            refine ⟨_, Or.inl rfl, by simp [changesOf], by simp [changesOf], by simp, ?_,
              fun _ he => GoResult.noConfusion he⟩
            intro t hc
            injection hc with hc
            subst hc
            exact ⟨rfl, _, rfl⟩
          | panic =>
            refine ⟨_, Or.inr rfl, by simp [changesOf], by simp [changesOf], by simp, ?_,
              fun _ he => GoResult.noConfusion he⟩
            intro t hc
            injection hc with hc
            subst hc
            exact ⟨rfl, _, rfl⟩
          | ok t2 =>
            have e2 : t2 = t1 := conv_forth_and_back a text t1 c1 t2 h0 h1 h2
            subst e2
            simp only [if_true]
            refine ⟨_, Or.inl rfl, by simp [changesOf], by simp [changesOf], by simp, ?_,
              fun _ he => GoResult.noConfusion he⟩
            intro t hc
            injection hc with hc
            subst hc
            exact ⟨rfl, _, rfl⟩

/-- C9 fails on the code as stated: there is no suppression flag. In the empty window the
user edits the code-point field to `"U+097"`; the conversion succeeds with `"a"`, the
character field is set, its handler runs and rewrites the code-point field to `"U+97"`, whose
handler sets the character field a second time. -/
theorem code_point_edit_retriggers :
    conv_point_code_to_unicode .bits64 [85, 43, 48, 57, 55] = .ok [97]
      ∧ userEdit .bits64 4 .code_point ⟨[], [], []⟩ [85, 43, 48, 57, 55]
          = .finished ⟨[97], [85, 43, 57, 55],
              [⟨.output, [97], false⟩, ⟨.code_point, [85, 43, 57, 55], true⟩,
               ⟨.output, [97], true⟩]⟩
      ∧ changesOf .code_point
          [⟨.output, [97], false⟩, ⟨.code_point, [85, 43, 57, 55], true⟩,
           ⟨.output, [97], true⟩] = 1
      ∧ callsOf .output
          [⟨.output, [97], false⟩, ⟨.code_point, [85, 43, 57, 55], true⟩,
           ⟨.output, [97], true⟩] = 2 := by
  decide

/-- C9 (amended): every user edit of either field, from any state and on either `int` width,
ends after at most four nested handler calls (the run finishes, or stops at a panic of a
conversion), so no mutual update cycle occurs. When the conversion of a code-point edit
succeeds with `c`, the first `SetText` call of the run is `SetText(c)` on the character
field and the run ends with the character field equal to `c`; symmetrically, when the
conversion of a character edit succeeds with `t`, the first call is `SetText(t)` on the
code-point field and the run ends with the code-point field equal to `t`. When the
conversion returns an error the handler returns without any `SetText` call and only the
edited field holds new text. During a run `SetText` is called at most three times and
changes the text of each field at most once. -/
theorem userEdit_settles (a : Arch) (fuel : Nat) (f : Field) (g : Gui) (text : GoString) :
    ∃ g1, (userEdit a (fuel + 4) f g text = .finished g1
          ∨ userEdit a (fuel + 4) f g text = .crashed g1)
      ∧ changesOf .output g1.log ≤ 1 ∧ changesOf .code_point g1.log ≤ 1
      ∧ g1.log.length ≤ 3
      ∧ (∀ c, f = .code_point → conv_point_code_to_unicode a text = .ok c →
          g1.unicode_output_entry = c
            ∧ ∃ changed, g1.log.getLast? = some ⟨.output, c, changed⟩)
      ∧ (∀ t, f = .output → conv_unicode_string_to_point_code text = .ok t →
          g1.unicode_code_point_entry = t
            ∧ ∃ changed, g1.log.getLast? = some ⟨.code_point, t, changed⟩)
      ∧ (∀ e, (f = .code_point ∧ conv_point_code_to_unicode a text = .err e)
            ∨ (f = .output ∧ conv_unicode_string_to_point_code text = .err e) →
          g1 = { g.setField f text with log := [] }
            ∧ userEdit a (fuel + 4) f g text = .finished g1) := by
  obtain ⟨o, p, l⟩ := g
  cases f with
  | output =>
    obtain ⟨g1, hrun, h1, h2, h3, hok, herr⟩ := userEdit_output_settles a fuel o p l text
    refine ⟨g1, hrun, h1, h2, h3, fun _ hf => Field.noConfusion hf, fun t _ ht => hok t ht, ?_⟩
    rintro e (⟨hf, _⟩ | ⟨_, he⟩)
    · exact Field.noConfusion hf
    · exact herr e he
  | code_point =>
    obtain ⟨g1, hrun, h1, h2, h3, hok, herr⟩ := userEdit_code_point_settles a fuel o p l text
    refine ⟨g1, hrun, h1, h2, h3, fun c _ hc => hok c hc, fun _ hf => Field.noConfusion hf, ?_⟩
    rintro e (⟨_, he⟩ | ⟨hf, _⟩)
    · exact herr e he
    · exact Field.noConfusion hf

/-- Witness for C9 (amended): in the empty window the user edits the code-point field to
`"U+97"`; the conversion succeeds with `"a"` and the run ends with the character field
equal to `"a"`, after a first call `SetText("a")` on it. -/
theorem userEdit_settles_witness :
    conv_point_code_to_unicode .bits64 [85, 43, 57, 55] = .ok [97]
      ∧ ∃ g1, (userEdit .bits64 4 .code_point ⟨[], [], []⟩ [85, 43, 57, 55] = .finished g1
            ∨ userEdit .bits64 4 .code_point ⟨[], [], []⟩ [85, 43, 57, 55] = .crashed g1)
          ∧ g1.unicode_output_entry = [97]
          ∧ ∃ changed, g1.log.getLast? = some ⟨.output, [97], changed⟩ := by
  obtain ⟨g1, hrun, _, _, _, hcp, _, _⟩ :=
    userEdit_settles .bits64 0 .code_point ⟨[], [], []⟩ [85, 43, 57, 55]
  exact ⟨by decide, g1, hrun, hcp [97] rfl (by decide)⟩

end UnicodeConverter
